import Mathlib

/-!
Verification of the Jeeniverse portal interface (src/index.tsx).

The development shallowly embeds the two procedural cores of the page —
the double-helix vault layout (`vaultItems` in `VaultDimension`) and the
particle trajectory generator (`TakingOverParticles`) — together with the
vault click handler and the `useCorruption` timer hook.  JavaScript
numbers are modelled as real numbers where the computation is closed-form
(the layout and trajectory formulas), `Math.random()` as an explicit
stream of draws, and `Date.now()` as an explicit clock argument.  The
`useCorruption` accumulator, whose behaviour near its clamp depends on
rounding, is modelled exactly: its state is an IEEE-754 binary64 number,
represented as an integer multiple of `2 ^ (-60)`, and the `+ 0.005` step
performs binary64 round-to-nearest addition.
-/

namespace Jeeniverse

/-! ## Data: the `realities` array (string fields the claims touch) -/

structure VaultItem where
  id : String
  title : String
  subtitle : String
  deriving DecidableEq, Repr

def realities : List VaultItem :=
  [ { id := "dragon", title := "Dragon's Den", subtitle := "Ancient Era" },
    { id := "cosmic", title := "Cosmic Voyage", subtitle := "Future Echo" },
    { id := "neon", title := "Cyber City", subtitle := "Digital Dream" },
    { id := "forest", title := "Spirit Woods", subtitle := "Nature's Whisper" } ]

def realityIds : List String := realities.map (fun r => r.id)

/-! ## Helix layout (`vaultItems`, src/index.tsx lines 556-600) -/

namespace Helix

inductive Strand where
  | A
  | B
  deriving DecidableEq, Repr

/-- `const strand = i % 2 === 0 ? 'A' : 'B'` -/
def strand (i : ℕ) : Strand := if i % 2 = 0 then Strand.A else Strand.B

noncomputable section

def verticalSpacing : ℝ := 110
def amplitude : ℝ := 90
def frequency : ℝ := 0.4

/-- `const phaseOffset = strand === 'A' ? 0 : Math.PI` -/
def phaseOffset (i : ℕ) : ℝ := if strand i = Strand.A then 0 else Real.pi

/-- `const angle = (i * frequency) + phaseOffset` -/
def angle (i : ℕ) : ℝ := i * frequency + phaseOffset i

/-- `const xOffset = Math.sin(angle) * amplitude` -/
def xOffset (i : ℕ) : ℝ := Real.sin (angle i) * amplitude

/-- `const depth = Math.cos(angle)` -/
def depth (i : ℕ) : ℝ := Real.cos (angle i)

/-- `const zScale = 0.6 + ((depth + 1) / 2) * 0.5` -/
def zScale (i : ℕ) : ℝ := 0.6 + ((depth i + 1) / 2) * 0.5

/-- `const zIndex = Math.floor(zScale * 100)` -/
def zIndexOf (i : ℕ) : ℤ := ⌊zScale i * 100⌋

/-- `const opacity = 0.4 + ((depth + 1) / 2) * 0.6` -/
def opacityOf (i : ℕ) : ℝ := 0.4 + ((depth i + 1) / 2) * 0.6

/-- One record of the object literal returned by the `baseItems.map`
callback: position, scale, z-index, opacity, tilt, delay and strand. -/
structure Placement where
  id : String
  title : String
  left : ℝ
  top : ℝ
  scale : ℝ
  zIndex : ℤ
  opacity : ℝ
  tilt : ℝ
  delay : ℝ
  strand : Strand

/-- The body of the `baseItems.map((item, i) => ...)` callback. -/
def helixPlace (i : ℕ) (item : VaultItem) : Placement :=
  { id := item.id
    title := item.title
    left := 50 + xOffset i
    top := 150 + i * verticalSpacing
    scale := zScale i
    zIndex := zIndexOf i
    opacity := opacityOf i
    tilt := Real.sin (angle i) * 10
    delay := i * 0.05
    strand := strand i }

def layoutHelixAux : ℕ → List VaultItem → List Placement
  | _, [] => []
  | i, item :: rest => helixPlace i item :: layoutHelixAux (i + 1) rest

/-- `baseItems.map((item, i) => ...)`: index-aware map over the input list. -/
def layoutHelix (items : List VaultItem) : List Placement :=
  layoutHelixAux 0 items

end

end Helix

/-! ## The concrete `baseItems` list built inside `vaultItems` -/

def lockedItem (r : VaultItem) (n : ℕ) : VaultItem :=
  { r with id := "locked-" ++ toString n, title := "Locked Memory", subtitle := "Encrypted" }

def baseItems : List VaultItem :=
  realities
    ++ realities.map (fun r => { r with id := r.id ++ "-dup" })
    ++ realities.map (fun r => { r with id := r.id ++ "-dup2" })
    ++ realities.map (fun r => { r with id := r.id ++ "-dup3" })
    ++ [lockedItem (realities.getD 0 ⟨"", "", ""⟩) 1,
        lockedItem (realities.getD 1 ⟨"", "", ""⟩) 2,
        lockedItem (realities.getD 2 ⟨"", "", ""⟩) 3]

noncomputable def vaultItems : List Helix.Placement := Helix.layoutHelix baseItems

/-! ## Particle trajectory generator (`TakingOverParticles`, lines 296-350)

`Math.random()` is modelled as an explicit stream `rng : ℕ → ℝ` of draws,
consumed in source order (six draws per particle: angle, distance,
duration, delay, width, height), and `Date.now()` as an explicit clock
argument `now`. -/

namespace Particles

inductive Speed where
  | fast
  | normal
  | slow
  deriving DecidableEq, Repr

inductive Shape where
  | circle
  | square
  | diamond
  | star
  deriving DecidableEq, Repr

/-- `getDurationMultiplier` (lines 300-304). -/
def getDurationMultiplier (speed : Speed) : ℝ :=
  if speed = Speed.fast then 0.2
  else if speed = Speed.slow then 3.0
  else 1.0

/-- `getShapeStyle` (lines 308-315): presentation metadata per shape. -/
structure ShapeStyle where
  borderRadius : String
  extraTransform : Option String
  clipPath : Option String
  deriving DecidableEq, Repr

def getShapeStyle (s : Shape) : ShapeStyle :=
  match s with
  | Shape.square => { borderRadius := "0", extraTransform := none, clipPath := none }
  | Shape.diamond => { borderRadius := "0", extraTransform := some "rotate(45deg)", clipPath := none }
  | Shape.star => { borderRadius := "0", extraTransform := none,
                    clipPath := some "polygon_star_10" }
  | Shape.circle => { borderRadius := "50%", extraTransform := none, clipPath := none }

/-- One rendered particle: the style values computed in the map body
(lines 319-346). -/
structure Particle where
  styleOf : ShapeStyle
  width : ℝ
  height : ℝ
  tx : ℝ
  ty : ℝ
  dur : ℝ
  delay : ℝ

/-- `const duration = (2 + Math.random() * 3) * mult` (line 322), as a
function of the base draw `u` (the `Math.random()` result) and the speed
class: `2 + u * 3` is `2 + uniformRandom(0, 3)` for `u` in `[0, 1)`. -/
noncomputable def durationOf (u : ℝ) (speed : Speed) : ℝ :=
  (2 + u * 3) * getDurationMultiplier speed

/-- The body of `particles.map((_, i) => ...)`: draw `6*i .. 6*i+5` are the
successive `Math.random()` results of particle `i`. -/
noncomputable def mkParticle (rng : ℕ → ℝ) (now : ℝ) (mult : ℝ) (shape : Shape)
    (i : ℕ) : Particle :=
  let ang := rng (6 * i) * Real.pi * 2
  let dist := 80 + rng (6 * i + 1) * 50
  let windX := Real.sin (now / 1000 + i) * 20
  { styleOf := getShapeStyle shape
    width := 2 + rng (6 * i + 4) * 4
    height := 2 + rng (6 * i + 5) * 4
    tx := Real.cos ang * dist + windX
    ty := Real.sin ang * dist
    dur := (2 + rng (6 * i + 2) * 3) * mult
    delay := rng (6 * i + 3) * 2 }

/-- The whole particle field render: `count` particles, indexed 0..count-1. -/
noncomputable def generateParticles (rng : ℕ → ℝ) (now : ℝ) (count : ℕ)
    (speed : Speed) (shape : Shape) : List Particle :=
  (List.range count).map (mkParticle rng now (getDurationMultiplier speed) shape)

end Particles

/-! ## Vault click handler (`VaultDimension`, lines 622-644)

JavaScript strings are sequences of characters; the string methods the
handler uses are embedded as operations on the character list of a Lean
string, so that every predicate below is kernel-evaluable. -/

/-- JavaScript `s.startsWith(p)`. -/
def jsStartsWith (s p : String) : Bool := p.data.isPrefixOf s.data

/-- JavaScript end-of-string test `s.endsWith(p)` (used to model the
end-anchored regex of the handler). -/
def jsEndsWith (s p : String) : Bool := p.data.isSuffixOf s.data

/-- Remove the last `n` characters of `s`. -/
def jsDropRight (s : String) (n : ℕ) : String := ⟨s.data.take (s.data.length - n)⟩

/-- The last character of `s` (arbitrary for the empty string). -/
def jsBack (s : String) : Char := s.data.getLastD ' '

/-- The two observable effects of clicking a vault item: a locked item
plays the thud sound only; an unlocked one plays the unlock sound and
invokes `onSelectReality` with the stripped id. -/
inductive ClickResult where
  | thud
  | unlock (selected : String)
  deriving DecidableEq, Repr

/-- The handler's `item.id.replace` with the end-anchored pattern
"dash, dup, optional digit": strip one trailing `-dup` optionally
followed by a single digit. -/
def stripDup (id : String) : String :=
  if jsEndsWith id "-dup" then jsDropRight id 4
  else if jsEndsWith (jsDropRight id 1) "-dup" && (jsBack id).isDigit then jsDropRight id 5
  else id

/-- The `onClick` handler (lines 637-644): `isLocked` is
`item.id.startsWith('locked')`. -/
def onClickVault (id : String) : ClickResult :=
  if jsStartsWith id "locked" then ClickResult.thud
  else ClickResult.unlock (stripDup id)

/-! ## `useCorruption` (lines 274-292)

The corruption state is a JavaScript number, i.e. an IEEE-754 binary64
value, and `prev + 0.005` is binary64 addition.  Every state the hook
reaches lies in `{0} ∪ [0.005, 2)`; on `[2 ^ (-8), 2)` the unit in the
last place of a binary64 number is at least `2 ^ (-60)`, so every
reachable state is an integer multiple of `2 ^ (-60)`.  States are
therefore represented as naturals counting units of `2 ^ (-60)`
(so `1.0` is `2 ^ 60`), and one addition step rounds the exact sum to 53
significant bits with ties to even — exactly binary64 round-to-nearest
addition on this range. -/

namespace Corruption

/-- Number of binary digits of `m`, for `m < 2 ^ fuel` (fuel-based so the
kernel can evaluate it; `fuel = 64` covers every value that occurs). -/
def bitLenAux : ℕ → ℕ → ℕ
  | 0, _ => 0
  | fuel + 1, m => if m = 0 then 0 else bitLenAux fuel (m / 2) + 1

def bitLen (m : ℕ) : ℕ := bitLenAux 64 m

/-- Round a value in units of `2 ^ (-60)` to 53 significant bits,
round-to-nearest with ties to even: binary64 rounding for the magnitudes
the hook reaches. -/
def roundB64 (m : ℕ) : ℕ :=
  if m < 2 ^ 53 then m
  else
    let shift := bitLen m - 53
    let q := m / 2 ^ shift
    let r := m % 2 ^ shift
    let half := 2 ^ (shift - 1)
    if r < half then q * 2 ^ shift
    else if half < r then (q + 1) * 2 ^ shift
    else if q % 2 = 0 then q * 2 ^ shift
    else (q + 1) * 2 ^ shift

/-- The binary64 number nearest to the literal `0.005`, in units of
`2 ^ (-60)`: `0.005` is not representable and reads as
`5764607523034235 * 2 ^ (-60)`, slightly above `1 / 200`. -/
def cDouble : ℕ := 5764607523034235

/-- One 50 ms interval tick while the hook is active:
`prev => { if (prev >= 1) return 1; return prev + 0.005; }`, on binary64
states in units of `2 ^ (-60)`. -/
def tickDouble (prev : ℕ) : ℕ :=
  if 2 ^ 60 ≤ prev then 2 ^ 60 else roundB64 (prev + cDouble)

/-- The events that change the corruption state: an interval tick while
active, or the effect re-running with `isActive = false`
(`setCorruption(0)`). -/
inductive Event where
  | tick
  | deactivate

/-- Corruption after a sequence of events, earliest event last; the
initial state is `useState(0)`. -/
def runDouble : List Event → ℕ
  | [] => 0
  | Event.tick :: rest => tickDouble (runDouble rest)
  | Event.deactivate :: _ => 0

/-- The real value denoted by a state in units of `2 ^ (-60)`. -/
noncomputable def valDouble (m : ℕ) : ℝ := (m : ℝ) / 2 ^ 60

end Corruption

/-! ## Theorems -/

theorem layoutHelixAux_length (items : List VaultItem) :
    ∀ k, (Helix.layoutHelixAux k items).length = items.length := by
  induction items with
  | nil => intro k; rfl
  | cons a rest ih => intro k; simp [Helix.layoutHelixAux, ih]

theorem layoutHelixAux_get (items : List VaultItem) :
    ∀ k i, (Helix.layoutHelixAux k items).get? i
      = (items.get? i).map (fun item => Helix.helixPlace (k + i) item) := by
  induction items with
  | nil => intro k i; simp [Helix.layoutHelixAux]
  | cons a rest ih =>
      intro k i
      cases i with
      | zero => simp [Helix.layoutHelixAux]
      | succ n =>
          have harith : k + 1 + n = k + (n + 1) := by omega
          simp only [Helix.layoutHelixAux, List.get?_cons_succ]
          rw [ih (k + 1) n, harith]

/-- C1: the helix layout (the `vaultItems` computation) returns a sequence
of placements of the same length and in the same order as its input item
sequence, for every input list; an empty input yields an empty output. -/
theorem helix_layout_preserves_length_and_order :
    (∀ items : List VaultItem, (Helix.layoutHelix items).length = items.length)
    ∧ (∀ (items : List VaultItem) (i : ℕ),
        ((Helix.layoutHelix items).get? i).map Helix.Placement.id
          = (items.get? i).map VaultItem.id)
    ∧ Helix.layoutHelix [] = [] := by
  refine ⟨fun items => layoutHelixAux_length items 0, fun items i => ?_, rfl⟩
  rw [Helix.layoutHelix, layoutHelixAux_get items 0 i]
  cases items.get? i with
  | none => rfl
  | some item => simp [Helix.helixPlace]

/-- C2: in the helix layout, `strand(i) = A` iff `i` is even, and the phase
angle of item `i` is `i * 0.4` plus `0` on strand A and `π` on strand B. -/
theorem helix_strand_parity_and_angle (i : ℕ) :
    (Helix.strand i = Helix.Strand.A ↔ i % 2 = 0)
    ∧ Helix.angle i = i * 0.4 + (if i % 2 = 0 then 0 else Real.pi) := by
  by_cases h : i % 2 = 0 <;>
    simp [Helix.strand, Helix.phaseOffset, Helix.angle, Helix.frequency, h]

/-- C3: every helix placement has scale in `[0.6, 1.1]` and opacity in
`[0.4, 1.0]`. -/
theorem helix_scale_opacity_in_range (i : ℕ) :
    (0.6 ≤ Helix.zScale i ∧ Helix.zScale i ≤ 1.1)
    ∧ (0.4 ≤ Helix.opacityOf i ∧ Helix.opacityOf i ≤ 1.0) := by
  have h1 : -1 ≤ Real.cos (Helix.angle i) := Real.neg_one_le_cos _
  have h2 : Real.cos (Helix.angle i) ≤ 1 := Real.cos_le_one _
  unfold Helix.zScale Helix.opacityOf Helix.depth
  refine ⟨⟨by nlinarith, by nlinarith⟩, by nlinarith, by nlinarith⟩

/-- C4: every helix placement's z-order is exactly `⌊scale * 100⌋`, and is
therefore monotone in the scale. -/
theorem helix_zindex_is_floor_of_scale (i : ℕ) :
    Helix.zIndexOf i = ⌊Helix.zScale i * 100⌋
    ∧ ∀ j : ℕ, Helix.zScale i ≤ Helix.zScale j → Helix.zIndexOf i ≤ Helix.zIndexOf j := by
  refine ⟨rfl, fun j h => ?_⟩
  unfold Helix.zIndexOf
  exact Int.floor_le_floor (by nlinarith)

/-- Witness for C4 at `i = j = 0`. -/
theorem helix_zindex_is_floor_of_scale_witness :
    Helix.zIndexOf 0 = ⌊Helix.zScale 0 * 100⌋ ∧ Helix.zIndexOf 0 ≤ Helix.zIndexOf 0 :=
  ⟨(helix_zindex_is_floor_of_scale 0).1,
   (helix_zindex_is_floor_of_scale 0).2 0 le_rfl⟩

/-- C5: scale and opacity are monotone in the shared depth value
`depth(i) = cos(angle(i))`. -/
theorem helix_scale_opacity_monotone_in_depth (i j : ℕ)
    (h : Helix.depth j < Helix.depth i) :
    Helix.zScale j ≤ Helix.zScale i ∧ Helix.opacityOf j ≤ Helix.opacityOf i := by
  unfold Helix.zScale Helix.opacityOf
  exact ⟨by nlinarith, by nlinarith⟩

theorem helix_angle_zero : Helix.angle 0 = 0 := by
  simp [Helix.angle, Helix.phaseOffset, Helix.strand, Helix.frequency]

theorem helix_angle_one : Helix.angle 1 = 0.4 + Real.pi := by
  have hp : Helix.phaseOffset 1 = Real.pi := rfl
  unfold Helix.angle
  rw [hp, Helix.frequency]
  norm_num

/-- Witness for C5 at `i = 0`, `j = 1`: item 0 is in front of item 1. -/
theorem helix_scale_opacity_monotone_in_depth_witness :
    Helix.depth 1 < Helix.depth 0
    ∧ Helix.zScale 1 ≤ Helix.zScale 0 ∧ Helix.opacityOf 1 ≤ Helix.opacityOf 0 := by
  have h04 : (0 : ℝ) < Real.cos 0.4 := by
    refine Real.cos_pos_of_mem_Ioo ⟨?_, ?_⟩
    · nlinarith [Real.pi_pos]
    · nlinarith [Real.pi_gt_three]
  have e1 : Helix.depth 1 = -Real.cos 0.4 := by
    unfold Helix.depth
    rw [helix_angle_one, Real.cos_add_pi]
  have e0 : Helix.depth 0 = 1 := by
    unfold Helix.depth
    rw [helix_angle_zero, Real.cos_zero]
  have hd : Helix.depth 1 < Helix.depth 0 := by rw [e0, e1]; nlinarith
  exact ⟨hd, (helix_scale_opacity_monotone_in_depth 0 1 hd).1,
         (helix_scale_opacity_monotone_in_depth 0 1 hd).2⟩

/-- C6: a particle's duration is `(2 + uniformRandom(0, 3))` times the
speed-class multiplier (`fast = 0.2`, `normal = 1.0`, `slow = 3.0`); for
the same base draw the fast duration is strictly below the slow one, with
ratio exactly `0.2 / 3.0`. -/
theorem duration_speed_class_relation (u : ℝ) (h0 : 0 ≤ u) (h1 : u < 1) :
    Particles.getDurationMultiplier Particles.Speed.fast = 0.2
    ∧ Particles.getDurationMultiplier Particles.Speed.normal = 1.0
    ∧ Particles.getDurationMultiplier Particles.Speed.slow = 3.0
    ∧ (∀ (rng : ℕ → ℝ) (now : ℝ) (shape : Particles.Shape)
        (speed : Particles.Speed) (i : ℕ),
        (Particles.mkParticle rng now (Particles.getDurationMultiplier speed) shape i).dur
          = Particles.durationOf (rng (6 * i + 2)) speed)
    ∧ Particles.durationOf u Particles.Speed.fast < Particles.durationOf u Particles.Speed.slow
    ∧ Particles.durationOf u Particles.Speed.fast
        / Particles.durationOf u Particles.Speed.slow = 0.2 / 3.0 := by
  have hpos : (0 : ℝ) < 2 + u * 3 := by nlinarith
  have hfast : Particles.getDurationMultiplier Particles.Speed.fast = 0.2 := rfl
  have hslow : Particles.getDurationMultiplier Particles.Speed.slow = 3.0 := rfl
  refine ⟨rfl, rfl, rfl, fun rng now shape speed i => rfl, ?_, ?_⟩
  · unfold Particles.durationOf
    rw [hfast, hslow]
    nlinarith
  · unfold Particles.durationOf
    rw [hfast, hslow]
    rw [div_eq_div_iff (by nlinarith) (by norm_num)]
    ring

/-- Witness for C6 at base draw `u = 0`. -/
theorem duration_speed_class_relation_witness :
    Particles.durationOf 0 Particles.Speed.fast < Particles.durationOf 0 Particles.Speed.slow
    ∧ Particles.durationOf 0 Particles.Speed.fast
        / Particles.durationOf 0 Particles.Speed.slow = 0.2 / 3.0 :=
  ⟨(duration_speed_class_relation 0 le_rfl (by norm_num)).2.2.2.2.1,
   (duration_speed_class_relation 0 le_rfl (by norm_num)).2.2.2.2.2⟩

theorem range_one_eq : List.range 1 = [0] := by decide

/-- Counterexample to C7 as stated: with the same injected random source
(constantly `0`) and the same arguments, two invocations made at
different wall-clock instants (`Date.now() = 0` and `Date.now() = 500π`)
give different trajectories, because the wind-drift term reads the clock,
which is not an argument of the generator. -/
theorem generateParticles_reads_clock :
    Particles.generateParticles (fun _ => 0) 0 1
        Particles.Speed.normal Particles.Shape.circle
      ≠ Particles.generateParticles (fun _ => 0) (500 * Real.pi) 1
        Particles.Speed.normal Particles.Shape.circle := by
  intro h
  have h2 := congrArg (fun l => l.map Particles.Particle.tx) h
  have e2 : (500 : ℝ) * Real.pi / 1000 = Real.pi / 2 := by ring
  simp [Particles.generateParticles, Particles.mkParticle, range_one_eq,
        e2, Real.sin_pi_div_two, Real.cos_zero, Real.sin_zero] at h2

/-- C7 amended: with a fixed random source and a fixed clock value, the
particle generator is deterministic: two runs with identical inputs
produce identical output sequences. -/
theorem generateParticles_deterministic (rng1 rng2 : ℕ → ℝ) (now1 now2 : ℝ)
    (count : ℕ) (speed : Particles.Speed) (shape : Particles.Shape)
    (hr : ∀ n, rng1 n = rng2 n) (ht : now1 = now2) :
    Particles.generateParticles rng1 now1 count speed shape
      = Particles.generateParticles rng2 now2 count speed shape := by
  have hf : rng1 = rng2 := funext hr
  rw [hf, ht]

/-- Witness for the amended C7: two runs with the constant-zero source at
clock `0` agree. -/
theorem generateParticles_deterministic_witness :
    Particles.generateParticles (fun _ => 0) 0 1
        Particles.Speed.normal Particles.Shape.circle
      = Particles.generateParticles (fun _ => 0) 0 1
        Particles.Speed.normal Particles.Shape.circle :=
  generateParticles_deterministic (fun _ => 0) (fun _ => 0) 0 0 1
    Particles.Speed.normal Particles.Shape.circle (fun _ => rfl) rfl

/-- Counterexample to C8 as stated: the CSS `width` and `height` of a
particle come from two separate `Math.random()` calls, so the rendered
width and height differ on a stream whose draws are `n / 10`. -/
theorem particle_width_height_differ :
    (Particles.generateParticles (fun n => (n : ℝ) / 10) 0 1
        Particles.Speed.normal Particles.Shape.circle).map Particles.Particle.width
      ≠ (Particles.generateParticles (fun n => (n : ℝ) / 10) 0 1
        Particles.Speed.normal Particles.Shape.circle).map Particles.Particle.height := by
  intro h
  simp [Particles.generateParticles, Particles.mkParticle, range_one_eq] at h
  norm_num at h

/-- C8 amended: each particle's width and height are sampled
independently, each as `2 + uniformRandom(0, 4)` (so each lies in
`[2, 6)`), but they are not a single shared size value. -/
theorem particle_width_height_sampled_independently
    (rng : ℕ → ℝ) (now : ℝ) (count : ℕ) (speed : Particles.Speed)
    (shape : Particles.Shape) (i : ℕ) (hi : i < count)
    (h4a : 0 ≤ rng (6 * i + 4)) (h4b : rng (6 * i + 4) < 1)
    (h5a : 0 ≤ rng (6 * i + 5)) (h5b : rng (6 * i + 5) < 1) :
    ((Particles.generateParticles rng now count speed shape).get? i).map
        Particles.Particle.width = some (2 + rng (6 * i + 4) * 4)
    ∧ ((Particles.generateParticles rng now count speed shape).get? i).map
        Particles.Particle.height = some (2 + rng (6 * i + 5) * 4)
    ∧ 2 ≤ 2 + rng (6 * i + 4) * 4 ∧ 2 + rng (6 * i + 4) * 4 < 6
    ∧ 2 ≤ 2 + rng (6 * i + 5) * 4 ∧ 2 + rng (6 * i + 5) * 4 < 6 := by
  refine ⟨?_, ?_, by nlinarith, by nlinarith, by nlinarith, by nlinarith⟩ <;>
  · rw [Particles.generateParticles, List.get?_map, List.get?_range hi]
    rfl

/-- Witness for the amended C8 at the stream `n ↦ n / 10`, particle 0 of a
one-particle field. -/
theorem particle_width_height_sampled_independently_witness :
    ((Particles.generateParticles (fun n => (n : ℝ) / 10) 0 1
        Particles.Speed.normal Particles.Shape.circle).get? 0).map
        Particles.Particle.width = some (2 + 4 / 10 * 4)
    ∧ ((Particles.generateParticles (fun n => (n : ℝ) / 10) 0 1
        Particles.Speed.normal Particles.Shape.circle).get? 0).map
        Particles.Particle.height = some (2 + 5 / 10 * 4) := by
  have H := particle_width_height_sampled_independently (fun n => (n : ℝ) / 10)
    0 1 Particles.Speed.normal Particles.Shape.circle 0 (by norm_num)
    (by norm_num) (by norm_num) (by norm_num) (by norm_num)
  exact ⟨by simpa using H.1, by simpa using H.2.1⟩

theorem onClickVault_unlock_arg (id s : String)
    (h : onClickVault id = ClickResult.unlock s) : s = stripDup id := by
  unfold onClickVault at h
  split at h
  · exact absurd h (by simp)
  · exact (ClickResult.unlock.injEq _ _ ▸ h).symm

/-- C9: clicking a vault item invokes the selection callback iff the item
is not locked (its id does not start with `locked`; a locked item only
thuds), and the selected id is the item id with any `-dup`, `-dup2` or
`-dup3` suffix stripped, hence one of the four base reality ids. -/
theorem vault_click_selects_base_reality (id : String)
    (h : id ∈ baseItems.map VaultItem.id) :
    (onClickVault id = ClickResult.thud ↔ jsStartsWith id "locked" = true)
    ∧ (∀ s, onClickVault id = ClickResult.unlock s → s ∈ realityIds)
    ∧ realityIds = ["dragon", "cosmic", "neon", "forest"] := by
  have hiff : ∀ x ∈ baseItems.map VaultItem.id,
      (onClickVault x = ClickResult.thud ↔ jsStartsWith x "locked" = true) := by decide
  have hmem : ∀ x ∈ baseItems.map VaultItem.id,
      jsStartsWith x "locked" = true ∨ stripDup x ∈ realityIds := by decide
  refine ⟨hiff id h, fun s hs => ?_, by decide⟩
  rcases hmem id h with hl | hm
  · exact absurd hs (by simp [onClickVault, hl])
  · rw [onClickVault_unlock_arg id s hs]
    exact hm

/-- Witness for C9 at the third duplicate of the dragon item. -/
theorem vault_click_selects_base_reality_witness :
    (onClickVault "dragon-dup2" = ClickResult.thud
      ↔ jsStartsWith "dragon-dup2" "locked" = true)
    ∧ "dragon" ∈ realityIds := by
  refine ⟨(vault_click_selects_base_reality "dragon-dup2" (by decide)).1, ?_⟩
  exact (vault_click_selects_base_reality "dragon-dup2" (by decide)).2.1
    "dragon" (by decide)

theorem corruption_runDouble_eq_iterate (evs : List Corruption.Event) :
    ∃ n, Corruption.runDouble evs = Corruption.tickDouble^[n] 0 := by
  induction evs with
  | nil => exact ⟨0, rfl⟩
  | cons e rest ih =>
      cases e with
      | deactivate => exact ⟨0, rfl⟩
      | tick =>
          obtain ⟨n, hn⟩ := ih
          refine ⟨n + 1, ?_⟩
          have hrun : Corruption.runDouble (Corruption.Event.tick :: rest)
              = Corruption.tickDouble (Corruption.runDouble rest) := rfl
          rw [hrun, hn, Function.iterate_succ_apply']

set_option maxRecDepth 4000 in
theorem corruption_iterate_le (n : ℕ) :
    Corruption.tickDouble^[n] 0 ≤ 2 ^ 60 + 768 := by
  rcases Nat.lt_or_ge n 202 with h | h
  · exact (by decide : ∀ m, m < 202 → Corruption.tickDouble^[m] 0 ≤ 2 ^ 60 + 768) n h
  · have hfix : ∀ m, Corruption.tickDouble^[201 + m] 0 = 2 ^ 60 := by
      intro m
      induction m with
      | zero => decide
      | succ k ih =>
          have harith : 201 + (k + 1) = 201 + k + 1 := by omega
          rw [harith, Function.iterate_succ_apply', ih]
          decide
    obtain ⟨m, rfl⟩ : ∃ m, n = 201 + m := ⟨n - 201, by omega⟩
    rw [hfix m]
    norm_num

set_option maxRecDepth 4000 in
/-- Counterexample to C10 as stated: after 200 uninterrupted 50 ms ticks
the binary64 corruption value is `1 + 3 * 2 ^ (-52)` (the double
`1.0000000000000007`), strictly greater than `1`: the repeated binary64
additions of the double nearest `0.005` overshoot `1` before the
`prev >= 1` clamp fires, so the program reaches a state outside
`[0, 1]`. -/
theorem corruption_exceeds_one_after_200_ticks :
    1 < Corruption.valDouble
        (Corruption.runDouble (List.replicate 200 Corruption.Event.tick)) := by
  have h : Corruption.runDouble (List.replicate 200 Corruption.Event.tick)
      = 2 ^ 60 + 768 := by decide
  rw [h]
  unfold Corruption.valDouble
  norm_num

set_option maxRecDepth 4000 in
/-- C10 amended: the corruption value starts at `0`, deactivation resets
it to `0`, a tick while active applies the clamped binary64 step, and
every reachable value lies in `[0, 1 + 3 * 2 ^ (-52)]` — not in `[0, 1]`:
the upper bound is attained after 200 uninterrupted ticks, where the
value exceeds `1` for a single tick before being clamped to exactly `1`
on the next one. -/
theorem corruption_bounded_with_overshoot :
    Corruption.runDouble [] = 0
    ∧ (∀ rest, Corruption.runDouble (Corruption.Event.deactivate :: rest) = 0)
    ∧ (∀ rest, Corruption.runDouble (Corruption.Event.tick :: rest)
        = Corruption.tickDouble (Corruption.runDouble rest))
    ∧ (∀ evs, 0 ≤ Corruption.valDouble (Corruption.runDouble evs)
        ∧ Corruption.valDouble (Corruption.runDouble evs) ≤ 1 + 3 / 2 ^ 52)
    ∧ Corruption.valDouble
        (Corruption.runDouble (List.replicate 200 Corruption.Event.tick))
        = 1 + 3 / 2 ^ 52
    ∧ Corruption.runDouble
        (Corruption.Event.tick :: List.replicate 200 Corruption.Event.tick)
        = 2 ^ 60 := by
  have h200 : Corruption.runDouble (List.replicate 200 Corruption.Event.tick)
      = 2 ^ 60 + 768 := by decide
  refine ⟨rfl, fun rest => rfl, fun rest => rfl, fun evs => ⟨?_, ?_⟩, ?_, by decide⟩
  · unfold Corruption.valDouble
    positivity
  · obtain ⟨n, hn⟩ := corruption_runDouble_eq_iterate evs
    have hle := corruption_iterate_le n
    unfold Corruption.valDouble
    rw [hn]
    rw [div_le_iff (by norm_num : (0 : ℝ) < 2 ^ 60)]
    have hcast : ((Corruption.tickDouble^[n] 0 : ℕ) : ℝ) ≤ 2 ^ 60 + 768 := by
      exact_mod_cast hle
    have hmul : ((1 : ℝ) + 3 / 2 ^ 52) * 2 ^ 60 = 2 ^ 60 + 768 := by norm_num
    linarith
  · rw [h200]
    unfold Corruption.valDouble
    norm_num

end Jeeniverse
